import Mathlib

/-!
Shallow embedding of `src/lib.rs` (the `rc_column` grid-layout library).

The one external dependency of the library is the terminal-width
measurement primitive (`UnicodeWidthStr::width`); it is modelled as an
arbitrary function `uw : String → Nat` passed to every operation that
consults it (cells cache their width at construction, so the layout
search itself only reads stored widths).

Machine integers (`usize`) are modelled as `Nat`; every subtraction in
the source that could underflow is the subject of a safety claim and is
modelled with truncating `Nat` subtraction.
-/

namespace RcColumn

inductive Alignment where
  | Left : Alignment
  | Right : Alignment
deriving DecidableEq

structure Cell where
  contents : String
  width : Nat
  alignment : Alignment
deriving DecidableEq

instance : Inhabited Cell := ⟨⟨"", 0, Alignment.Left⟩⟩

/-- `impl From<String> for Cell` / `impl From<&str> for Cell`:
width is computed once by the external measurement primitive `uw`. -/
def Cell.fromText (uw : String → Nat) (string : String) : Cell :=
  { contents := string, width := uw string, alignment := Alignment.Left }

inductive Direction where
  | LeftToRight : Direction
  | TopToBottom : Direction
deriving DecidableEq

inductive Filling where
  | Spaces : Nat → Filling
  | Text : String → Filling
deriving DecidableEq

/-- `Filling::width`; for `Text` the source calls the measurement primitive. -/
def Filling.width (uw : String → Nat) : Filling → Nat
  | Filling.Spaces w => w
  | Filling.Text t => uw t

structure Dimensions where
  num_lines : Nat
  widths : List Nat
deriving DecidableEq

/-- `Dimensions::total_width`. -/
def Dimensions.total_width (dims : Dimensions) (separator_width : Nat) : Nat :=
  if dims.widths.isEmpty then 0
  else dims.widths.sum + separator_width * (dims.widths.length - 1)

structure GridOptions where
  filling : Filling
  direction : Direction
deriving DecidableEq

structure Grid where
  options : GridOptions
  cells : List Cell
  widest_cell_length : Nat
  width_sum : Nat
  cell_count : Nat
deriving DecidableEq

/-- `Grid::new`. -/
def Grid.new (options : GridOptions) : Grid :=
  { options := options, cells := [], widest_cell_length := 0, width_sum := 0, cell_count := 0 }

/-- `Grid::add`. -/
def Grid.add (g : Grid) (cell : Cell) : Grid :=
  { g with
    widest_cell_length :=
      if cell.width > g.widest_cell_length then cell.width else g.widest_cell_length,
    width_sum := g.width_sum + cell.width,
    cell_count := g.cell_count + 1,
    cells := g.cells ++ [cell] }

/-- The running aggregate `widest_cell_length` that a sequence of `add`s produces. -/
def widest_width (cells : List Cell) : Nat :=
  cells.foldl (fun m c => if c.width > m then c.width else m) 0

/-- The invariant the source maintains between a grid's cell list and its
incrementally-updated aggregates (established by `Grid::new` and preserved
by `Grid::add`; proved below). -/
def Grid.wf (g : Grid) : Prop :=
  g.cell_count = g.cells.length ∧
  g.widest_cell_length = widest_width g.cells ∧
  g.width_sum = (g.cells.map Cell.width).sum

instance (g : Grid) : Decidable g.wf := by unfold Grid.wf; infer_instance

/-- Round-up division, written the way the source writes it twice
(`x / y` then `+ 1` when `x % y != 0`). -/
def ceilDiv (a b : Nat) : Nat :=
  a / b + if a % b ≠ 0 then 1 else 0

/-- The column a cell at flat position `index` is assigned to
(`Grid::column_widths`, match on direction). -/
def colIndex (direction : Direction) (num_lines num_columns index : Nat) : Nat :=
  match direction with
  | Direction.LeftToRight => index % num_columns
  | Direction.TopToBottom => index / num_lines

/-- One step of the accumulation loop in `Grid::column_widths`:
`widths[index] = max(widths[index], cell.width)`.  (The Rust indexing
panics out of bounds; every call site below keeps the index in bounds,
where `set`/`getD` agree with the Rust behaviour.) -/
def cwStep (direction : Direction) (num_lines num_columns : Nat)
    (ws : List Nat) (p : Nat × Cell) : List Nat :=
  let idx := colIndex direction num_lines num_columns p.1
  ws.set idx (max (ws.getD idx 0) p.2.width)

/-- `Grid::column_widths`. -/
def Grid.column_widths (g : Grid) (num_lines num_columns : Nat) : Dimensions :=
  { num_lines := num_lines,
    widths :=
      g.cells.enum.foldl (cwStep g.options.direction num_lines num_columns)
        (List.replicate num_columns 0) }

/-- The greedy packing loop of `Grid::theoretical_max_num_lines`, with the
running provisional column count and cumulative width as arguments.
The second component records whether the division `cell_count /
theoretical_min_num_cols` (reached on overflow) had a nonzero divisor:
in Rust a zero divisor panics, so `false` marks the panicking run. -/
def tmnlLoop (count fillw maxw : Nat) : List Nat → Nat → Nat → Nat × Bool
  | [], _cols, _total => (1, true)
  | w :: rest, cols, total =>
    if w + total ≤ maxw then
      tmnlLoop count fillw maxw rest (cols + 1) (total + w + fillw)
    else
      (ceilDiv count cols, decide (cols ≠ 0))

/-- The source sorts a clone of the cell vector by descending width and
then reads only the widths.  On `Nat` the descending ordering of the
width multiset is unique, so sorting the width list with `· ≥ ·` yields
exactly the width sequence the sorted cell vector produces. -/
def Grid.sorted_widths (g : Grid) : List Nat :=
  List.insertionSort (· ≥ ·) (g.cells.map Cell.width)

/-- `Grid::theoretical_max_num_lines`. -/
def Grid.theoretical_max_num_lines (uw : String → Nat) (g : Grid) (maximum_width : Nat) : Nat :=
  (tmnlLoop g.cell_count (g.options.filling.width uw) maximum_width g.sorted_widths 0 0).1

/-- Whether `Grid::theoretical_max_num_lines` never divides by zero. -/
def Grid.tmnl_division_ok (uw : String → Nat) (g : Grid) (maximum_width : Nat) : Bool :=
  (tmnlLoop g.cell_count (g.options.filling.width uw) maximum_width g.sorted_widths 0 0).2

/-- `num_columns` derived from a candidate row count in `Grid::width_dimensions`. -/
def Grid.cand_num_columns (g : Grid) (num_lines : Nat) : Nat :=
  ceilDiv g.cell_count num_lines

/-- `total_separator_width` for a candidate row count. -/
def Grid.cand_sep_width (uw : String → Nat) (g : Grid) (num_lines : Nat) : Nat :=
  (g.cand_num_columns num_lines - 1) * g.options.filling.width uw

/-- `potential_dimensions` for a candidate row count. -/
def Grid.cand_dims (g : Grid) (num_lines : Nat) : Dimensions :=
  g.column_widths num_lines (g.cand_num_columns num_lines)

/-- Total rendered width a candidate row count would occupy
(content columns plus separators). -/
def Grid.cand_total (uw : String → Nat) (g : Grid) (num_lines : Nat) : Nat :=
  (g.cand_dims num_lines).widths.sum + g.cand_sep_width uw num_lines

/-- Candidate skipped by the `continue` branch: separators alone overflow. -/
def Grid.cand_skip (uw : String → Nat) (g : Grid) (maximum_width num_lines : Nat) : Prop :=
  maximum_width < g.cand_sep_width uw num_lines

/-- Candidate recorded as feasible (column-width sum strictly below the
separator-adjusted budget). -/
def Grid.cand_feas (uw : String → Nat) (g : Grid) (maximum_width num_lines : Nat) : Prop :=
  ¬ maximum_width < g.cand_sep_width uw num_lines ∧
    (g.cand_dims num_lines).widths.sum < maximum_width - g.cand_sep_width uw num_lines

/-- Candidate checked and found infeasible (triggers the early `return`). -/
def Grid.cand_infeas (uw : String → Nat) (g : Grid) (maximum_width num_lines : Nat) : Prop :=
  ¬ maximum_width < g.cand_sep_width uw num_lines ∧
    ¬ (g.cand_dims num_lines).widths.sum < maximum_width - g.cand_sep_width uw num_lines

instance (uw : String → Nat) (g : Grid) (m n : Nat) : Decidable (g.cand_skip uw m n) := by
  unfold Grid.cand_skip; infer_instance

instance (uw : String → Nat) (g : Grid) (m n : Nat) : Decidable (g.cand_feas uw m n) := by
  unfold Grid.cand_feas; infer_instance

instance (uw : String → Nat) (g : Grid) (m n : Nat) : Decidable (g.cand_infeas uw m n) := by
  unfold Grid.cand_infeas; infer_instance

/-- The descending search loop of `Grid::width_dimensions`:
`for num_lines in (1 .. theoretical_max_num_lines).rev()` with the
running `smallest_dimensions_yet`; the argument `n` is the next (highest
remaining) candidate, and the fall-through on exhaustion returns `none`
exactly as the source's final `None` does. -/
def widthDimLoop (uw : String → Nat) (g : Grid) (maximum_width : Nat) :
    Nat → Option Dimensions → Option Dimensions
  | 0, _best => none
  | n + 1, best =>
    if maximum_width < g.cand_sep_width uw (n + 1) then
      widthDimLoop uw g maximum_width n best
    else if (g.cand_dims (n + 1)).widths.sum <
        maximum_width - g.cand_sep_width uw (n + 1) then
      widthDimLoop uw g maximum_width n (some (g.cand_dims (n + 1)))
    else
      best

/-- `Grid::width_dimensions`.  (The `cell_count == 1` arm indexes
`cells[0]`, modelled by `headI`; under `Grid.wf` the list is nonempty
there, matching the Rust indexing.) -/
def Grid.width_dimensions (uw : String → Nat) (g : Grid) (maximum_width : Nat) :
    Option Dimensions :=
  if g.widest_cell_length > maximum_width then none
  else if g.cell_count = 0 then some { num_lines := 0, widths := [] }
  else if g.cell_count = 1 then some { num_lines := 1, widths := [g.cells.headI.width] }
  else if g.theoretical_max_num_lines uw maximum_width = 1 then
    some { num_lines := 1, widths := g.cells.map Cell.width }
  else
    widthDimLoop uw g maximum_width (g.theoretical_max_num_lines uw maximum_width - 1) none

structure Display where
  grid : Grid
  dimensions : Dimensions
deriving DecidableEq

/-- `Grid::fit_into_width`. -/
def Grid.fit_into_width (uw : String → Nat) (g : Grid) (maximum_width : Nat) : Option Display :=
  (g.width_dimensions uw maximum_width).map
    (fun dims => { grid := g, dimensions := dims })

/-- `Display::width`. -/
def Display.width (uw : String → Nat) (disp : Display) : Nat :=
  disp.dimensions.total_width (disp.grid.options.filling.width uw)

/-- `Display::row_count`. -/
def Display.row_count (disp : Display) : Nat :=
  disp.dimensions.num_lines

/-- `Display::is_complete`. -/
def Display.is_complete (disp : Display) : Bool :=
  disp.dimensions.widths.all (fun x => decide (0 < x))

/-- `spaces` helper of the renderer. -/
def spaces (length : Nat) : String :=
  String.join (List.replicate length " ")

/-- `pad_string` helper of the renderer. -/
def pad_string (string : String) (padding : Nat) (alignment : Alignment) : String :=
  if alignment = Alignment.Left then string ++ spaces padding
  else spaces padding ++ string

/-- The flat cell index `num` the renderer derives from `(x, y)`. -/
def flat_index (direction : Direction) (dims : Dimensions) (y x : Nat) : Nat :=
  match direction with
  | Direction.LeftToRight => y * dims.widths.length + x
  | Direction.TopToBottom => y + dims.num_lines * x

/-- What the renderer's inner loop body emits for grid slot `(x, y)`:
nothing when the flat index runs past the cells, otherwise the padded
cell text per the (last-column?, filling, alignment) analysis of
`impl fmt::Display for Display`.  The `usize` subtractions
`widths[x] - cell.width` are truncating here; the safety claim below
shows they never underflow for a fit-produced display (the source
asserts `widths[x] >= cell.width` on the non-last-column path). -/
def render_slot (disp : Display) (y x : Nat) : String :=
  let num := flat_index disp.grid.options.direction disp.dimensions y x
  if num < disp.grid.cells.length then
    let cell := disp.grid.cells.getD num default
    if x = disp.dimensions.widths.length - 1 then
      match cell.alignment with
      | Alignment.Left => cell.contents
      | Alignment.Right =>
        pad_string cell.contents (disp.dimensions.widths.getD x 0 - cell.width) Alignment.Right
    else
      match disp.grid.options.filling, cell.alignment with
      | Filling.Spaces n, Alignment.Left =>
        pad_string cell.contents (disp.dimensions.widths.getD x 0 - cell.width + n)
          Alignment.Left
      | Filling.Spaces n, Alignment.Right =>
        pad_string cell.contents (disp.dimensions.widths.getD x 0 - cell.width)
          Alignment.Right ++ spaces n
      | Filling.Text t, _ =>
        pad_string cell.contents (disp.dimensions.widths.getD x 0 - cell.width)
          cell.alignment ++ t
  else ""

/-- `impl fmt::Display for Display`: the double loop writing every slot
of row `y` into one buffer and then `writeln!` after each row. -/
def render_text (disp : Display) : String :=
  (List.range disp.dimensions.num_lines).foldl
    (fun acc y =>
      ((List.range disp.dimensions.widths.length).foldl
        (fun acc2 x => acc2 ++ render_slot disp y x) acc) ++ "\n")
    ""


/-- A width function that is never consulted in the concrete instances
below (their fillings are all `Spaces`). -/
def uw0 : String → Nat := fun _ => 0

def testGrid (cells : List Cell) (filling : Filling) (direction : Direction) : Grid :=
  { options := { filling := filling, direction := direction },
    cells := cells,
    widest_cell_length := widest_width cells,
    width_sum := (cells.map Cell.width).sum,
    cell_count := cells.length }

def cellW (w : Nat) : Cell := { contents := "", width := w, alignment := Alignment.Left }

/-! ### Supporting lemmas: the grid invariant -/

theorem wf_new (options : GridOptions) : (Grid.new options).wf := by
  refine ⟨rfl, rfl, rfl⟩

theorem wf_add (g : Grid) (cell : Cell) (h : g.wf) : (g.add cell).wf := by
  obtain ⟨h1, h2, h3⟩ := h
  refine ⟨?_, ?_, ?_⟩
  · simp [Grid.add, h1]
  · simp [Grid.add, h2, widest_width, List.foldl_append]
  · simp [Grid.add, h3]

theorem widest_width_le_fold (cells : List Cell) :
    ∀ m : Nat, m ≤ cells.foldl (fun m c => if c.width > m then c.width else m) m := by
  induction cells with
  | nil => intro m; exact Nat.le_refl m
  | cons c cs ih =>
    intro m
    refine Nat.le_trans ?_ (ih (if c.width > m then c.width else m))
    split <;> omega

theorem width_le_widest_fold (cells : List Cell) :
    ∀ m : Nat, ∀ c ∈ cells,
      c.width ≤ cells.foldl (fun m c => if c.width > m then c.width else m) m := by
  induction cells with
  | nil => intro m c hc; cases hc
  | cons d cs ih =>
    intro m c hc
    rcases List.mem_cons.mp hc with rfl | hc
    · simp only [List.foldl_cons]
      refine Nat.le_trans ?_ (widest_width_le_fold cs _)
      split <;> omega
    · exact ih _ c hc

theorem width_le_widest_width {cells : List Cell} {c : Cell} (hc : c ∈ cells) :
    c.width ≤ widest_width cells :=
  width_le_widest_fold cells 0 c hc

theorem widest_width_singleton (c : Cell) : widest_width [c] = c.width := by
  simp only [widest_width, List.foldl_cons, List.foldl_nil]
  split <;> omega

/-! ### Supporting lemmas: round-up division -/

theorem ceilDiv_le_iff {k : Nat} (hk : 0 < k) (n m : Nat) :
    ceilDiv n k ≤ m ↔ n ≤ k * m := by
  have hd := Nat.div_add_mod n k
  unfold ceilDiv
  by_cases h : n % k = 0
  · simp only [h, ne_eq, not_true_eq_false, if_false, ite_false]
    constructor
    · intro hle
      calc n = k * (n / k) := by omega
        _ ≤ k * m := Nat.mul_le_mul_left k hle
    · intro hle
      have := Nat.div_le_div_right (c := k) hle
      rwa [Nat.mul_div_cancel_left m hk] at this
  · simp only [h, ne_eq, not_false_eq_true, if_true, ite_true]
    constructor
    · intro hle
      have hlt : n / k < m := by omega
      have h2 := (Nat.div_lt_iff_lt_mul hk).mp hlt
      have h3 : m * k = k * m := Nat.mul_comm m k
      omega
    · intro hle
      have hne : n ≠ k * m := by
        intro he
        have : n % k = 0 := by rw [he]; exact Nat.mul_mod_right k m
        exact h this
      have h3 : m * k = k * m := Nat.mul_comm m k
      have hlt : n < m * k := by omega
      have := (Nat.div_lt_iff_lt_mul hk).mpr hlt
      omega

theorem one_le_ceilDiv {n : Nat} (hn : 0 < n) (k : Nat) : 1 ≤ ceilDiv n k := by
  rcases Nat.eq_zero_or_pos k with rfl | hk
  · unfold ceilDiv
    have hne : n ≠ 0 := by omega
    simp [Nat.mod_zero, hne]
  · by_contra hlt
    have : ceilDiv n k ≤ 0 := by omega
    have := (ceilDiv_le_iff hk n 0).mp this
    omega

theorem ceilDiv_antitone {k k' : Nat} (hk : 0 < k) (hkk : k ≤ k') (n : Nat) :
    ceilDiv n k' ≤ ceilDiv n k := by
  have hk' : 0 < k' := by omega
  rw [ceilDiv_le_iff hk' n (ceilDiv n k)]
  have h1 : n ≤ k * ceilDiv n k := (ceilDiv_le_iff hk n (ceilDiv n k)).mp (Nat.le_refl _)
  calc n ≤ k * ceilDiv n k := h1
    _ ≤ k' * ceilDiv n k := Nat.mul_le_mul_right _ hkk

theorem le_mul_ceilDiv {k : Nat} (hk : 0 < k) (n : Nat) : n ≤ k * ceilDiv n k :=
  (ceilDiv_le_iff hk n (ceilDiv n k)).mp (Nat.le_refl _)

theorem ceilDiv_pred_mul_lt {k n : Nat} (hk : 0 < k) (hn : 0 < n) :
    (ceilDiv n k - 1) * k < n := by
  by_contra hle
  have hcomm : (ceilDiv n k - 1) * k = k * (ceilDiv n k - 1) := Nat.mul_comm _ _
  have h1 : n ≤ k * (ceilDiv n k - 1) := by omega
  have h2 : ceilDiv n k ≤ ceilDiv n k - 1 := (ceilDiv_le_iff hk n _).mpr h1
  have h3 : 1 ≤ ceilDiv n k := one_le_ceilDiv hn k
  omega

theorem ceilDiv_le_self {k n : Nat} (hk : 0 < k) : ceilDiv n k ≤ n := by
  rw [ceilDiv_le_iff hk]
  calc n = 1 * n := (Nat.one_mul n).symm
    _ ≤ k * n := Nat.mul_le_mul_right n hk

/-! ### Supporting lemmas: the column-width accumulation fold -/

theorem getD_set_self {ws : List Nat} {i : Nat} (v : Nat) (h : i < ws.length) :
    (ws.set i v).getD i 0 = v := by
  simp [List.getD_eq_getElem?_getD, List.getElem?_set, h]

theorem getD_set_ne {ws : List Nat} {i j : Nat} (v : Nat) (h : i ≠ j) :
    (ws.set i v).getD j 0 = ws.getD j 0 := by
  simp [List.getD_eq_getElem?_getD, List.getElem?_set, h]

theorem cwStep_getD_le (direction : Direction) (num_lines num_columns : Nat)
    (ws : List Nat) (p : Nat × Cell) (q : Nat) :
    ws.getD q 0 ≤ (cwStep direction num_lines num_columns ws p).getD q 0 := by
  unfold cwStep
  set idx := colIndex direction num_lines num_columns p.1 with hidx
  by_cases hq : idx = q
  · subst hq
    by_cases hb : idx < ws.length
    · rw [getD_set_self _ hb]; omega
    · rw [List.set_eq_of_length_le (by omega)]
  · rw [getD_set_ne _ hq]

theorem cwStep_length (direction : Direction) (num_lines num_columns : Nat)
    (ws : List Nat) (p : Nat × Cell) :
    (cwStep direction num_lines num_columns ws p).length = ws.length := by
  unfold cwStep; exact List.length_set ws _ _

theorem cwFold_length (direction : Direction) (num_lines num_columns : Nat)
    (ps : List (Nat × Cell)) :
    ∀ ws : List Nat,
      (List.foldl (cwStep direction num_lines num_columns) ws ps).length = ws.length := by
  induction ps with
  | nil => intro ws; rfl
  | cons p ps ih =>
    intro ws
    rw [List.foldl_cons, ih, cwStep_length]

theorem cwFold_getD_le (direction : Direction) (num_lines num_columns : Nat)
    (ps : List (Nat × Cell)) :
    ∀ (ws : List Nat) (q : Nat),
      ws.getD q 0 ≤ (List.foldl (cwStep direction num_lines num_columns) ws ps).getD q 0 := by
  induction ps with
  | nil => intro ws q; exact Nat.le_refl _
  | cons p ps ih =>
    intro ws q
    rw [List.foldl_cons]
    exact Nat.le_trans (cwStep_getD_le direction num_lines num_columns ws p q) (ih _ q)

theorem cwFold_ge_width (direction : Direction) (num_lines num_columns : Nat)
    (ps : List (Nat × Cell)) :
    ∀ (ws : List Nat) (i : Nat) (c : Cell), (i, c) ∈ ps →
      colIndex direction num_lines num_columns i < ws.length →
      c.width ≤
        (List.foldl (cwStep direction num_lines num_columns) ws ps).getD
          (colIndex direction num_lines num_columns i) 0 := by
  induction ps with
  | nil => intro ws i c hm; cases hm
  | cons p ps ih =>
    intro ws i c hm hb
    rcases List.mem_cons.mp hm with he | hm
    · rw [List.foldl_cons]
      refine Nat.le_trans ?_ (cwFold_getD_le direction num_lines num_columns ps _ _)
      subst he
      simp only [cwStep]
      rw [getD_set_self _ hb]
      exact Nat.le_max_right _ _
    · rw [List.foldl_cons]
      have hb2 : colIndex direction num_lines num_columns i <
          (cwStep direction num_lines num_columns ws p).length := by
        rwa [cwStep_length]
      exact ih _ i c hm hb2

theorem column_widths_num_lines (g : Grid) (num_lines num_columns : Nat) :
    (g.column_widths num_lines num_columns).num_lines = num_lines := rfl

theorem column_widths_length (g : Grid) (num_lines num_columns : Nat) :
    (g.column_widths num_lines num_columns).widths.length = num_columns := by
  unfold Grid.column_widths
  simp only
  rw [cwFold_length, List.length_replicate]

theorem mem_enum_of_lt {cells : List Cell} {num : Nat} (h : num < cells.length) :
    (num, cells.getD num default) ∈ cells.enum := by
  have h1 : num < cells.enum.length := by rwa [List.enum_length]
  have h2 := List.getElem_mem h1
  rw [List.getElem_enum] at h2
  have h3 : cells.getD num default = cells[num] := by
    rw [List.getD_eq_getElem?_getD, List.getElem?_eq_getElem h]
    rfl
  rwa [h3]

theorem column_widths_ge_width (g : Grid) (num_lines num_columns : Nat)
    {num : Nat} (h : num < g.cells.length)
    (hb : colIndex g.options.direction num_lines num_columns num < num_columns) :
    (g.cells.getD num default).width ≤
      (g.column_widths num_lines num_columns).widths.getD
        (colIndex g.options.direction num_lines num_columns num) 0 := by
  unfold Grid.column_widths
  simp only
  refine cwFold_ge_width g.options.direction num_lines num_columns g.cells.enum
    (List.replicate num_columns 0) num (g.cells.getD num default)
    (mem_enum_of_lt h) ?_
  rwa [List.length_replicate]


/-! ### Supporting lemmas: the greedy packing loop -/

theorem tmnlLoop_pos (count fillw maxw : Nat) (hc : 0 < count) :
    ∀ (ws : List Nat) (cols total : Nat), 1 ≤ (tmnlLoop count fillw maxw ws cols total).1 := by
  intro ws
  induction ws with
  | nil => intro cols total; exact Nat.le_refl 1
  | cons w rest ih =>
    intro cols total
    unfold tmnlLoop
    by_cases hp : w + total ≤ maxw
    · simpa [hp] using ih (cols + 1) (total + w + fillw)
    · simpa [hp] using one_le_ceilDiv hc cols

theorem tmnlLoop_safe (count fillw maxw : Nat) :
    ∀ (ws : List Nat) (cols total : Nat),
      (0 < cols ∨ ∀ w, ws.head? = some w → w + total ≤ maxw) →
      (tmnlLoop count fillw maxw ws cols total).2 = true := by
  intro ws
  induction ws with
  | nil => intro cols total _h; rfl
  | cons w rest ih =>
    intro cols total h
    unfold tmnlLoop
    by_cases hp : w + total ≤ maxw
    · simpa [hp] using ih (cols + 1) (total + w + fillw) (Or.inl (Nat.succ_pos cols))
    · have hcols : 0 < cols := by
        rcases h with h | h
        · exact h
        · exact absurd (h w rfl) hp
      simp only [hp, if_false, ite_false]
      simp only [decide_eq_true_eq]
      omega

theorem tmnlLoop_eq_one_sum (count fillw maxw : Nat) :
    ∀ (ws : List Nat) (cols total : Nat), ws ≠ [] →
      (0 < cols ∨ ∀ w, ws.head? = some w → w + total ≤ maxw) →
      cols + ws.length = count →
      (tmnlLoop count fillw maxw ws cols total).1 = 1 →
      total + ws.sum + (ws.length - 1) * fillw ≤ maxw := by
  intro ws
  induction ws with
  | nil => intro cols total hne; exact absurd rfl hne
  | cons w rest ih =>
    intro cols total _hne h hinv hres
    by_cases hp : w + total ≤ maxw
    · by_cases hrestne : rest = []
      case pos =>
        subst hrestne
        simp only [List.sum_cons, List.sum_nil, List.length_cons, List.length_nil]
        omega
      case neg =>
        have hlen : 0 < rest.length := List.length_pos.mpr hrestne
        unfold tmnlLoop at hres
        simp only [hp, if_true, ite_true] at hres
        have hih := ih (cols + 1) (total + w + fillw) hrestne
          (Or.inl (Nat.succ_pos cols)) (by simp at hinv ⊢; omega) hres
        have h1 : (rest.length - 1) * fillw = rest.length * fillw - fillw :=
          Nat.sub_one_mul _ _
        have h2 : 1 * fillw ≤ rest.length * fillw := Nat.mul_le_mul_right fillw hlen
        rw [Nat.one_mul] at h2
        simp only [List.sum_cons, List.length_cons]
        have h3 : (rest.length + 1 - 1) = rest.length := by omega
        rw [h3]
        omega
    · have hcols : 0 < cols := by
        rcases h with h | h
        · exact h
        · exact absurd (h w rfl) hp
      unfold tmnlLoop at hres
      simp only [hp, if_false, ite_false] at hres
      have hlt : cols < count := by
        simp only [List.length_cons] at hinv
        omega
      have := (ceilDiv_le_iff hcols count 1).mp (by omega)
      omega

theorem tmnlLoop_le_ceilDiv (count fillw maxw' : Nat) (hc : 0 < count) :
    ∀ (ws : List Nat) (cols' total' cols : Nat), 0 < cols → cols ≤ cols' →
      (tmnlLoop count fillw maxw' ws cols' total').1 ≤ ceilDiv count cols := by
  intro ws
  induction ws with
  | nil => intro cols' total' cols hc0 _; exact one_le_ceilDiv hc cols
  | cons w rest ih =>
    intro cols' total' cols hc0 hle
    unfold tmnlLoop
    by_cases hp : w + total' ≤ maxw'
    · simpa [hp] using ih (cols' + 1) (total' + w + fillw) cols hc0 (by omega)
    · simpa [hp] using ceilDiv_antitone hc0 hle count

theorem tmnlLoop_anti (count fillw : Nat) {maxw maxw' : Nat} (hmm : maxw ≤ maxw')
    (hc : 0 < count) :
    ∀ (ws : List Nat) (cols total : Nat),
      (0 < cols ∨ ∀ w, ws.head? = some w → w + total ≤ maxw) →
      (tmnlLoop count fillw maxw' ws cols total).1 ≤
        (tmnlLoop count fillw maxw ws cols total).1 := by
  intro ws
  induction ws with
  | nil => intro cols total _h; exact Nat.le_refl 1
  | cons w rest ih =>
    intro cols total h
    by_cases hp : w + total ≤ maxw
    · have hp' : w + total ≤ maxw' := by omega
      unfold tmnlLoop
      simpa [hp, hp'] using
        ih (cols + 1) (total + w + fillw) (Or.inl (Nat.succ_pos cols))
    · have hcols : 0 < cols := by
        rcases h with h | h
        · exact h
        · exact absurd (h w rfl) hp
      by_cases hp' : w + total ≤ maxw'
      · unfold tmnlLoop
        simp only [hp, hp', if_true, if_false, ite_true, ite_false]
        exact tmnlLoop_le_ceilDiv count fillw maxw' hc rest (cols + 1)
          (total + w + fillw) cols hcols (by omega)
      · unfold tmnlLoop
        simp [hp, hp']

/-! ### Supporting lemmas: the sorted width list -/

theorem sorted_widths_perm (g : Grid) : g.sorted_widths.Perm (g.cells.map Cell.width) :=
  List.perm_insertionSort _ _

theorem sorted_widths_length (g : Grid) : g.sorted_widths.length = g.cells.length := by
  rw [(sorted_widths_perm g).length_eq, List.length_map]

theorem sorted_widths_sum (g : Grid) : g.sorted_widths.sum = (g.cells.map Cell.width).sum :=
  (sorted_widths_perm g).sum_eq

theorem sorted_widths_head_le (g : Grid) {w : Nat} (h : g.sorted_widths.head? = some w) :
    w ≤ widest_width g.cells := by
  have hmem : w ∈ g.sorted_widths := by
    cases hs : g.sorted_widths with
    | nil => rw [hs] at h; cases h
    | cons a l =>
      rw [hs] at h
      simp only [List.head?_cons, Option.some.injEq] at h
      subst h
      exact List.mem_cons_self a l
  have hmem2 : w ∈ g.cells.map Cell.width := (sorted_widths_perm g).mem_iff.mp hmem
  obtain ⟨c, hc, hcw⟩ := List.mem_map.mp hmem2
  rw [← hcw]
  exact width_le_widest_width hc

/-! ### Grid-level facts about `theoretical_max_num_lines` -/

theorem tmnl_pos (uw : String → Nat) (g : Grid) (maxw : Nat) (hc : 0 < g.cell_count) :
    1 ≤ g.theoretical_max_num_lines uw maxw :=
  tmnlLoop_pos g.cell_count (g.options.filling.width uw) maxw hc g.sorted_widths 0 0

theorem tmnl_head_packs (g : Grid) {maxw : Nat} (hwf : g.wf)
    (hw : g.widest_cell_length ≤ maxw) :
    (0 < 0 ∨ ∀ w, g.sorted_widths.head? = some w → w + 0 ≤ maxw) := by
  refine Or.inr (fun w hhead => ?_)
  have h1 := sorted_widths_head_le g hhead
  have h2 := hwf.2.1
  omega

theorem tmnl_anti (uw : String → Nat) (g : Grid) {maxw maxw' : Nat} (hmm : maxw ≤ maxw')
    (hwf : g.wf) (hc : 0 < g.cell_count) (hw : g.widest_cell_length ≤ maxw) :
    g.theoretical_max_num_lines uw maxw' ≤ g.theoretical_max_num_lines uw maxw :=
  tmnlLoop_anti g.cell_count (g.options.filling.width uw) hmm hc g.sorted_widths 0 0
    (tmnl_head_packs g hwf hw)

theorem tmnl_eq_one_total (uw : String → Nat) (g : Grid) {maxw : Nat} (hwf : g.wf)
    (hc : 0 < g.cell_count) (hw : g.widest_cell_length ≤ maxw)
    (h1 : g.theoretical_max_num_lines uw maxw = 1) :
    (g.cells.map Cell.width).sum +
      (g.cell_count - 1) * g.options.filling.width uw ≤ maxw := by
  have hlen : g.sorted_widths.length = g.cell_count := by
    rw [sorted_widths_length, ← hwf.1]
  have hne : g.sorted_widths ≠ [] := by
    intro he
    rw [he] at hlen
    simp at hlen
    omega
  have := tmnlLoop_eq_one_sum g.cell_count (g.options.filling.width uw) maxw
    g.sorted_widths 0 0 hne (tmnl_head_packs g hwf hw) (by omega) h1
  rw [sorted_widths_sum, hlen] at this
  omega

theorem tmnl_division_ok_of_widest_le (uw : String → Nat) (g : Grid) {maxw : Nat}
    (hwf : g.wf) (hw : g.widest_cell_length ≤ maxw) :
    g.tmnl_division_ok uw maxw = true :=
  tmnlLoop_safe g.cell_count (g.options.filling.width uw) maxw g.sorted_widths 0 0
    (tmnl_head_packs g hwf hw)

/-! ### Supporting lemmas: flat render indices vs column assignment -/

theorem colIndex_flat_LR {nc : Nat} (x y : Nat) (hx : x < nc) :
    (y * nc + x) % nc = x := by
  rw [Nat.add_comm, Nat.mul_comm, Nat.add_mul_mod_self_left]
  exact Nat.mod_eq_of_lt hx

theorem colIndex_flat_TB {nl : Nat} (x y : Nat) (hy : y < nl) :
    (y + nl * x) / nl = x := by
  have hnl : 0 < nl := by omega
  rw [Nat.add_mul_div_left y x hnl, Nat.div_eq_of_lt hy]
  omega

theorem colIndex_surj (direction : Direction) {nl count : Nat} (hnl : 0 < nl)
    {p : Nat} (hp : p < ceilDiv count nl) :
    ∃ i, i < count ∧ colIndex direction nl (ceilDiv count nl) i = p := by
  cases direction with
  | LeftToRight =>
    refine ⟨p, ?_, ?_⟩
    · exact Nat.lt_of_lt_of_le hp (ceilDiv_le_self hnl)
    · simpa [colIndex] using Nat.mod_eq_of_lt hp
  | TopToBottom =>
    refine ⟨p * nl, ?_, ?_⟩
    · by_contra hge
      have h1 : count ≤ nl * p := by
        have := Nat.mul_comm p nl
        omega
      have h2 : ceilDiv count nl ≤ p := (ceilDiv_le_iff hnl count p).mpr h1
      omega
    · simpa [colIndex] using Nat.mul_div_cancel p hnl


/-! ### The descending search loop, characterised -/

theorem cand_skip_of_not (uw : String → Nat) (g : Grid) (maxw j : Nat)
    (hnf : ¬ g.cand_feas uw maxw j) (hni : ¬ g.cand_infeas uw maxw j) :
    g.cand_skip uw maxw j := by
  unfold Grid.cand_feas at hnf
  unfold Grid.cand_infeas at hni
  unfold Grid.cand_skip
  tauto

theorem cand_skip_not_feas (uw : String → Nat) (g : Grid) (maxw j : Nat)
    (hs : g.cand_skip uw maxw j) : ¬ g.cand_feas uw maxw j := by
  unfold Grid.cand_skip at hs
  unfold Grid.cand_feas
  tauto

theorem cand_skip_not_infeas (uw : String → Nat) (g : Grid) (maxw j : Nat)
    (hs : g.cand_skip uw maxw j) : ¬ g.cand_infeas uw maxw j := by
  unfold Grid.cand_skip at hs
  unfold Grid.cand_infeas
  tauto

/-- Full functional characterisation of the descending search loop of
`Grid::width_dimensions`, for any accumulator: the loop yields `some d`
exactly when the scan (from candidate `n` down to `1`) reaches a first
checked-infeasible candidate `j0`, and `d` is the dimensions of the last
feasible candidate recorded before reaching it — the smallest feasible
`j'` above `j0` with only skipped candidates in between — or, when no
feasible candidate lies above `j0`, the incoming accumulator. -/
theorem widthDimLoop_some_iff (uw : String → Nat) (g : Grid) (maxw : Nat) :
    ∀ (n : Nat) (best : Option Dimensions) (d : Dimensions),
      widthDimLoop uw g maxw n best = some d ↔
        ∃ j0, 1 ≤ j0 ∧ j0 ≤ n ∧ g.cand_infeas uw maxw j0 ∧
          (∀ j, j0 < j → j ≤ n → ¬ g.cand_infeas uw maxw j) ∧
          ((∃ j', j0 < j' ∧ j' ≤ n ∧ g.cand_feas uw maxw j' ∧
              (∀ j, j0 < j → j < j' → g.cand_skip uw maxw j) ∧ d = g.cand_dims j')
           ∨ ((∀ j', j0 < j' → j' ≤ n → ¬ g.cand_feas uw maxw j') ∧ best = some d)) := by
  intro n
  induction n with
  | zero =>
    intro best d
    constructor
    · intro h
      simp [widthDimLoop] at h
    · rintro ⟨j0, h1, h2, -⟩
      omega
  | succ n ih =>
    intro best d
    by_cases hskip : maxw < g.cand_sep_width uw (n + 1)
    · -- the candidate `n + 1` is skipped by the `continue` branch
      have hstep : widthDimLoop uw g maxw (n + 1) best = widthDimLoop uw g maxw n best := by
        simp only [widthDimLoop]
        rw [if_pos hskip]
      rw [hstep, ih best d]
      constructor
      · rintro ⟨j0, h1, h2, hinf, hnoinf, hdis⟩
        refine ⟨j0, h1, by omega, hinf, ?_, ?_⟩
        · intro j hj1 hj2
          rcases Nat.lt_or_ge j (n + 1) with hj | hj
          · exact hnoinf j hj1 (by omega)
          · have : j = n + 1 := by omega
            subst this
            intro hc
            exact hc.1 hskip
        · rcases hdis with ⟨j', hj1, hj2, hf, hsk, hd⟩ | ⟨hnf, hb⟩
          · exact Or.inl ⟨j', hj1, by omega, hf, hsk, hd⟩
          · refine Or.inr ⟨?_, hb⟩
            intro j' hj1 hj2
            rcases Nat.lt_or_ge j' (n + 1) with hj | hj
            · exact hnf j' hj1 (by omega)
            · have : j' = n + 1 := by omega
              subst this
              intro hc
              exact hc.1 hskip
      · rintro ⟨j0, h1, h2, hinf, hnoinf, hdis⟩
        have hj0n : j0 ≤ n := by
          rcases Nat.lt_or_ge j0 (n + 1) with hj | hj
          · omega
          · have : j0 = n + 1 := by omega
            subst this
            exact absurd hskip hinf.1
        refine ⟨j0, h1, hj0n, hinf, ?_, ?_⟩
        · intro j hj1 hj2
          exact hnoinf j hj1 (by omega)
        · rcases hdis with ⟨j', hj1, hj2, hf, hsk, hd⟩ | ⟨hnf, hb⟩
          · have hj'n : j' ≤ n := by
              rcases Nat.lt_or_ge j' (n + 1) with hj | hj
              · omega
              · have : j' = n + 1 := by omega
                subst this
                exact absurd hskip hf.1
            exact Or.inl ⟨j', hj1, hj'n, hf, hsk, hd⟩
          · refine Or.inr ⟨?_, hb⟩
            intro j' hj1 hj2
            exact hnf j' hj1 (by omega)
    · by_cases hfeas : (g.cand_dims (n + 1)).widths.sum <
          maxw - g.cand_sep_width uw (n + 1)
      · -- the candidate `n + 1` is recorded as feasible
        have hfeasP : g.cand_feas uw maxw (n + 1) := ⟨hskip, hfeas⟩
        have hstep : widthDimLoop uw g maxw (n + 1) best =
            widthDimLoop uw g maxw n (some (g.cand_dims (n + 1))) := by
          simp only [widthDimLoop]
          rw [if_neg hskip, if_pos hfeas]
        rw [hstep, ih (some (g.cand_dims (n + 1))) d]
        constructor
        · rintro ⟨j0, h1, h2, hinf, hnoinf, hdis⟩
          refine ⟨j0, h1, by omega, hinf, ?_, ?_⟩
          · intro j hj1 hj2
            rcases Nat.lt_or_ge j (n + 1) with hj | hj
            · exact hnoinf j hj1 (by omega)
            · have : j = n + 1 := by omega
              subst this
              intro hc
              exact hc.2 hfeas
          · rcases hdis with ⟨j', hj1, hj2, hf, hsk, hd⟩ | ⟨hnf, hb⟩
            · exact Or.inl ⟨j', hj1, by omega, hf, hsk, hd⟩
            · have hd : d = g.cand_dims (n + 1) := (Option.some_inj.mp hb).symm
              refine Or.inl ⟨n + 1, by omega, Nat.le_refl _, hfeasP, ?_, hd⟩
              intro j hj1 hj2
              exact cand_skip_of_not uw g maxw j (hnf j hj1 (by omega))
                (hnoinf j hj1 (by omega))
        · rintro ⟨j0, h1, h2, hinf, hnoinf, hdis⟩
          have hj0n : j0 ≤ n := by
            rcases Nat.lt_or_ge j0 (n + 1) with hj | hj
            · omega
            · have : j0 = n + 1 := by omega
              subst this
              exact absurd hfeas hinf.2
          refine ⟨j0, h1, hj0n, hinf, ?_, ?_⟩
          · intro j hj1 hj2
            exact hnoinf j hj1 (by omega)
          · rcases hdis with ⟨j', hj1, hj2, hf, hsk, hd⟩ | ⟨hnf, hb⟩
            · rcases Nat.lt_or_ge j' (n + 1) with hj | hj
              · exact Or.inl ⟨j', hj1, by omega, hf, hsk, hd⟩
              · have hj' : j' = n + 1 := by omega
                subst hj'
                refine Or.inr ⟨?_, by rw [hd]⟩
                intro j'' hj''1 hj''2
                exact cand_skip_not_feas uw g maxw j'' (hsk j'' hj''1 (by omega))
            · exact absurd hfeasP (hnf (n + 1) (by omega) (Nat.le_refl _))
      · -- the candidate `n + 1` is checked and infeasible: early return
        have hinfP : g.cand_infeas uw maxw (n + 1) := ⟨hskip, hfeas⟩
        have hstep : widthDimLoop uw g maxw (n + 1) best = best := by
          simp only [widthDimLoop]
          rw [if_neg hskip, if_neg hfeas]
        rw [hstep]
        constructor
        · intro hb
          refine ⟨n + 1, by omega, Nat.le_refl _, hinfP, ?_, Or.inr ⟨?_, hb⟩⟩
          · intro j hj1 hj2
            omega
          · intro j' hj1 hj2
            omega
        · rintro ⟨j0, h1, h2, hinf, hnoinf, hdis⟩
          have hj0 : j0 = n + 1 := by
            by_contra hne
            have hj0n : j0 ≤ n := by omega
            exact hnoinf (n + 1) (by omega) (Nat.le_refl _) hinfP
          subst hj0
          rcases hdis with ⟨j', hj1, hj2, -⟩ | ⟨-, hb⟩
          · omega
          · exact hb


/-! ### Case analysis of `Grid::width_dimensions` -/

theorem cand_dims_num_lines (g : Grid) (num_lines : Nat) :
    (g.cand_dims num_lines).num_lines = num_lines := rfl

theorem cand_dims_widths_length (g : Grid) (num_lines : Nat) :
    (g.cand_dims num_lines).widths.length = g.cand_num_columns num_lines :=
  column_widths_length g num_lines (g.cand_num_columns num_lines)

theorem cand_sep_width_antitone (uw : String → Nat) (g : Grid) {j j' : Nat}
    (hj : 0 < j) (hle : j ≤ j') : g.cand_sep_width uw j' ≤ g.cand_sep_width uw j := by
  unfold Grid.cand_sep_width Grid.cand_num_columns
  exact Nat.mul_le_mul_right _ (Nat.sub_le_sub_right (ceilDiv_antitone hj hle _) 1)

theorem cand_feas_iff_total_lt (uw : String → Nat) (g : Grid) (maxw num_lines : Nat) :
    g.cand_feas uw maxw num_lines ↔ g.cand_total uw num_lines < maxw := by
  unfold Grid.cand_feas Grid.cand_total
  omega

theorem cand_infeas_total_ge (uw : String → Nat) (g : Grid) {maxw num_lines : Nat}
    (h : g.cand_infeas uw maxw num_lines) : maxw ≤ g.cand_total uw num_lines := by
  unfold Grid.cand_infeas at h
  unfold Grid.cand_total
  omega

theorem width_dimensions_some_cases (uw : String → Nat) (g : Grid) (maxw : Nat)
    (d : Dimensions) (hsome : g.width_dimensions uw maxw = some d) :
    g.widest_cell_length ≤ maxw ∧
      ((g.cell_count = 0 ∧ d = { num_lines := 0, widths := [] }) ∨
       (g.cell_count = 1 ∧ d = { num_lines := 1, widths := [g.cells.headI.width] }) ∨
       (2 ≤ g.cell_count ∧ g.theoretical_max_num_lines uw maxw = 1 ∧
         d = { num_lines := 1, widths := g.cells.map Cell.width }) ∨
       (2 ≤ g.cell_count ∧ 2 ≤ g.theoretical_max_num_lines uw maxw ∧
         ∃ j', 2 ≤ j' ∧ j' ≤ g.theoretical_max_num_lines uw maxw - 1 ∧
           g.cand_feas uw maxw j' ∧ d = g.cand_dims j')) := by
  unfold Grid.width_dimensions at hsome
  by_cases h1 : g.widest_cell_length > maxw
  · rw [if_pos h1] at hsome
    cases hsome
  rw [if_neg h1] at hsome
  refine ⟨by omega, ?_⟩
  by_cases h2 : g.cell_count = 0
  · rw [if_pos h2] at hsome
    exact Or.inl ⟨h2, (Option.some_inj.mp hsome).symm⟩
  rw [if_neg h2] at hsome
  by_cases h3 : g.cell_count = 1
  · rw [if_pos h3] at hsome
    exact Or.inr (Or.inl ⟨h3, (Option.some_inj.mp hsome).symm⟩)
  rw [if_neg h3] at hsome
  have hc2 : 2 ≤ g.cell_count := by omega
  by_cases h4 : g.theoretical_max_num_lines uw maxw = 1
  · rw [if_pos h4] at hsome
    exact Or.inr (Or.inr (Or.inl ⟨hc2, h4, (Option.some_inj.mp hsome).symm⟩))
  rw [if_neg h4] at hsome
  have ht1 : 1 ≤ g.theoretical_max_num_lines uw maxw := tmnl_pos uw g maxw (by omega)
  have ht2 : 2 ≤ g.theoretical_max_num_lines uw maxw := by omega
  obtain ⟨j0, hj01, hj02, hinf, hnoinf, hdis⟩ :=
    (widthDimLoop_some_iff uw g maxw (g.theoretical_max_num_lines uw maxw - 1) none d).mp
      hsome
  rcases hdis with ⟨j', hj1, hj2, hf, hsk, hd⟩ | ⟨-, hb⟩
  · exact Or.inr (Or.inr (Or.inr ⟨hc2, ht2, j', by omega, hj2, hf, hd⟩))
  · cases hb

/-- In the search-loop case, a successful fit is fully characterised: the
returned row count sits directly above the first checked-infeasible
candidate, every scanned candidate above it (itself included) has total
rendered width strictly below the budget, and the candidate below it has
total width at least the budget. -/
theorem width_dimensions_loop_char (uw : String → Nat) (g : Grid) (maxw : Nat)
    (d : Dimensions) (hc : 2 ≤ g.cell_count)
    (ht : 2 ≤ g.theoretical_max_num_lines uw maxw)
    (hsome : g.width_dimensions uw maxw = some d) :
    2 ≤ d.num_lines ∧ d.num_lines ≤ g.theoretical_max_num_lines uw maxw - 1 ∧
      d = g.cand_dims d.num_lines ∧
      maxw ≤ g.cand_total uw (d.num_lines - 1) ∧
      (∀ m, d.num_lines ≤ m → m ≤ g.theoretical_max_num_lines uw maxw - 1 →
        g.cand_total uw m < maxw) := by
  have h1 : ¬ g.widest_cell_length > maxw := by
    by_contra hgt
    unfold Grid.width_dimensions at hsome
    rw [if_pos (by omega)] at hsome
    cases hsome
  have heq : g.width_dimensions uw maxw =
      widthDimLoop uw g maxw (g.theoretical_max_num_lines uw maxw - 1) none := by
    unfold Grid.width_dimensions
    rw [if_neg h1, if_neg (by omega), if_neg (by omega), if_neg (by omega)]
  rw [heq] at hsome
  obtain ⟨j0, hj01, hj02, hinf, hnoinf, hdis⟩ :=
    (widthDimLoop_some_iff uw g maxw (g.theoretical_max_num_lines uw maxw - 1) none d).mp
      hsome
  rcases hdis with ⟨j', hj1, hj2, hf, hsk, hd⟩ | ⟨-, hb⟩
  swap
  · cases hb
  have hsepj0 : g.cand_sep_width uw j0 ≤ maxw := by
    have := hinf.1
    omega
  have hj' : j' = j0 + 1 := by
    by_contra hne
    have hmid : g.cand_skip uw maxw (j0 + 1) := hsk (j0 + 1) (by omega) (by omega)
    have hanti : g.cand_sep_width uw (j0 + 1) ≤ g.cand_sep_width uw j0 :=
      cand_sep_width_antitone uw g (by omega) (by omega)
    unfold Grid.cand_skip at hmid
    omega
  have hnl : d.num_lines = j' := by rw [hd, cand_dims_num_lines]
  subst hj'
  refine ⟨by omega, by omega, by rw [hnl, ← hd], ?_, ?_⟩
  · have := cand_infeas_total_ge uw g hinf
    have hpred : d.num_lines - 1 = j0 := by omega
    rwa [hpred]
  · intro m hm1 hm2
    have hm0 : j0 < m := by omega
    have hni : ¬ g.cand_infeas uw maxw m := hnoinf m hm0 hm2
    have hns : ¬ g.cand_skip uw maxw m := by
      have hanti : g.cand_sep_width uw m ≤ g.cand_sep_width uw j0 :=
        cand_sep_width_antitone uw g (by omega) (by omega)
      unfold Grid.cand_skip
      omega
    have hfm : g.cand_feas uw maxw m := by
      by_contra hnf
      exact hns (cand_skip_of_not uw g maxw m hnf hni)
    exact (cand_feas_iff_total_lt uw g maxw m).mp hfm


/-! ### Helpers for the claim theorems -/

theorem headI_mem_of_ne_nil {l : List Cell} (h : l ≠ []) : l.headI ∈ l := by
  cases l with
  | nil => exact absurd rfl h
  | cons a t => exact List.mem_cons_self a t

theorem getD_zero_eq_headI {l : List Cell} (h : l ≠ []) : l.getD 0 default = l.headI := by
  cases l with
  | nil => exact absurd rfl h
  | cons a t => rfl

theorem fit_some_inv (uw : String → Nat) (g : Grid) (maxw : Nat) (disp : Display)
    (h : g.fit_into_width uw maxw = some disp) :
    g.width_dimensions uw maxw = some disp.dimensions ∧ disp.grid = g := by
  unfold Grid.fit_into_width at h
  cases hwd : g.width_dimensions uw maxw with
  | none =>
    rw [hwd] at h
    cases h
  | some d =>
    rw [hwd] at h
    simp only [Option.map_some'] at h
    have := Option.some_inj.mp h
    rw [← this]
    exact ⟨rfl, rfl⟩

theorem total_width_singleton (w sep : Nat) :
    Dimensions.total_width { num_lines := 1, widths := [w] } sep = w := by
  simp [Dimensions.total_width]

theorem total_width_le_of_feas (uw : String → Nat) (g : Grid) {maxw j : Nat}
    (hj : 0 < j) (hc : 0 < g.cell_count) (hf : g.cand_feas uw maxw j) :
    (g.cand_dims j).total_width (g.options.filling.width uw) ≤ maxw := by
  have hlen : (g.cand_dims j).widths.length = g.cand_num_columns j :=
    cand_dims_widths_length g j
  have hnc : 1 ≤ g.cand_num_columns j := one_le_ceilDiv hc j
  have hne : ¬ (g.cand_dims j).widths.isEmpty := by
    rw [List.isEmpty_iff_length_eq_zero, hlen]
    omega
  unfold Dimensions.total_width
  rw [if_neg hne, hlen]
  obtain ⟨hsep, hsum⟩ := hf
  unfold Grid.cand_sep_width at hsep hsum
  have hcomm : g.options.filling.width uw * (g.cand_num_columns j - 1) =
      (g.cand_num_columns j - 1) * g.options.filling.width uw := Nat.mul_comm _ _
  omega

/-! ### The claims -/

/-- C3: whenever some cell of the grid is strictly wider than the requested
maximum width, `fit_into_width` fails, whatever the other cells are. -/
theorem c3_infeasible_single_cell (uw : String → Nat) (g : Grid) (maxw : Nat) (c : Cell)
    (hwf : g.wf) (hc : c ∈ g.cells) (hgt : maxw < c.width) :
    g.fit_into_width uw maxw = none := by
  unfold Grid.fit_into_width Grid.width_dimensions
  have hwide : g.widest_cell_length > maxw := by
    have h1 := width_le_widest_width hc
    have h2 := hwf.2.1
    omega
  rw [if_pos hwide]
  rfl

theorem c3_witness :
    (testGrid [cellW 11] (Filling.Spaces 2) Direction.TopToBottom).fit_into_width uw0 10 =
      none :=
  c3_infeasible_single_cell uw0 _ 10 (cellW 11) (by decide) (by decide) (by decide)

/-- C4: a one-cell grid whose cell has width `w ≤ max_width` (the boundary
`w = max_width` included) fits with one line, a single column of width `w`,
and total rendered width `w`. -/
theorem c4_single_cell (uw : String → Nat) (g : Grid) (maxw : Nat) (c : Cell)
    (hwf : g.wf) (hcells : g.cells = [c]) (hle : c.width ≤ maxw) :
    g.width_dimensions uw maxw = some { num_lines := 1, widths := [c.width] } ∧
      ∃ disp, g.fit_into_width uw maxw = some disp ∧ disp.row_count = 1 ∧
        disp.width uw = c.width := by
  have hcount : g.cell_count = 1 := by rw [hwf.1, hcells]; rfl
  have hwide : g.widest_cell_length = c.width := by
    rw [hwf.2.1, hcells, widest_width_singleton]
  have hwd : g.width_dimensions uw maxw = some { num_lines := 1, widths := [c.width] } := by
    unfold Grid.width_dimensions
    rw [if_neg (by omega), if_neg (by omega), if_pos hcount]
    rw [hcells]
    rfl
  refine ⟨hwd, ⟨{ grid := g, dimensions := { num_lines := 1, widths := [c.width] } }, ?_, rfl, ?_⟩⟩
  · unfold Grid.fit_into_width
    rw [hwd]
    rfl
  · unfold Display.width
    exact total_width_singleton c.width _

theorem c4_witness :
    (testGrid [cellW 10] (Filling.Spaces 2) Direction.TopToBottom).width_dimensions uw0 10 =
        some { num_lines := 1, widths := [10] } ∧
      ∃ disp,
        (testGrid [cellW 10] (Filling.Spaces 2) Direction.TopToBottom).fit_into_width uw0 10 =
            some disp ∧
          disp.row_count = 1 ∧ disp.width uw0 = 10 :=
  c4_single_cell uw0 _ 10 (cellW 10) (by decide) (by decide) (by decide)

/-- C10: for a grid of at least two cells whose widest cell fits the budget
(the precondition established before `theoretical_max_num_lines` is called),
the greedy packing always packs the first (widest) cell, so the division
`cell_count / theoretical_min_num_cols` never has a zero divisor, and the
returned bound is at least 1. -/
theorem c10_tmnl_no_division_by_zero (uw : String → Nat) (g : Grid) (maxw : Nat)
    (hwf : g.wf) (hc : 2 ≤ g.cell_count) (hw : g.widest_cell_length ≤ maxw) :
    g.tmnl_division_ok uw maxw = true ∧ 1 ≤ g.theoretical_max_num_lines uw maxw :=
  ⟨tmnl_division_ok_of_widest_le uw g hwf hw, tmnl_pos uw g maxw (by omega)⟩

theorem c10_witness :
    (testGrid [cellW 3, cellW 1, cellW 3] (Filling.Spaces 0)
        Direction.LeftToRight).tmnl_division_ok uw0 5 = true ∧
      1 ≤ (testGrid [cellW 3, cellW 1, cellW 3] (Filling.Spaces 0)
        Direction.LeftToRight).theoretical_max_num_lines uw0 5 :=
  c10_tmnl_no_division_by_zero uw0 _ 5 (by decide) (by decide) (by decide)

/-- C2: every successful fit keeps the total rendered width — column-width
sum plus fill-separator width times (columns − 1), or 0 with no columns —
within the requested maximum: `Display::width() ≤ maximum_width`. -/
theorem c2_width_within_budget (uw : String → Nat) (g : Grid) (maxw : Nat)
    (disp : Display) (hwf : g.wf) (hfit : g.fit_into_width uw maxw = some disp) :
    disp.width uw ≤ maxw := by
  obtain ⟨hwd, hgrid⟩ := fit_some_inv uw g maxw disp hfit
  obtain ⟨hwide, hcases⟩ := width_dimensions_some_cases uw g maxw disp.dimensions hwd
  unfold Display.width
  rw [hgrid]
  rcases hcases with ⟨h0, hd⟩ | ⟨h1, hd⟩ | ⟨hc2, ht1, hd⟩ | ⟨hc2, ht2, j', hj1, hj2, hf, hd⟩
  · rw [hd]
    simp [Dimensions.total_width]
  · rw [hd, total_width_singleton]
    have hne : g.cells ≠ [] := by
      intro he
      rw [hwf.1, he] at h1
      cases h1
    have := width_le_widest_width (headI_mem_of_ne_nil hne)
    have h2 := hwf.2.1
    omega
  · rw [hd]
    have htot := tmnl_eq_one_total uw g hwf (by omega) hwide ht1
    have hlen : (g.cells.map Cell.width).length = g.cell_count := by
      rw [List.length_map, ← hwf.1]
    have hne : ¬ (g.cells.map Cell.width).isEmpty := by
      rw [List.isEmpty_iff_length_eq_zero, hlen]
      omega
    unfold Dimensions.total_width
    simp only
    rw [if_neg hne, hlen]
    have hcomm : g.options.filling.width uw * (g.cell_count - 1) =
        (g.cell_count - 1) * g.options.filling.width uw := Nat.mul_comm _ _
    omega
  · rw [hd]
    exact total_width_le_of_feas uw g (by omega) (by omega) hf

theorem c2_witness :
    (⟨testGrid [cellW 3, cellW 1, cellW 3] (Filling.Spaces 0) Direction.LeftToRight,
        { num_lines := 2, widths := [3, 1] }⟩ : Display).width uw0 ≤ 5 :=
  c2_width_within_budget uw0
    (testGrid [cellW 3, cellW 1, cellW 3] (Filling.Spaces 0) Direction.LeftToRight) 5
    ⟨testGrid [cellW 3, cellW 1, cellW 3] (Filling.Spaces 0) Direction.LeftToRight,
      { num_lines := 2, widths := [3, 1] }⟩ (by decide) (by decide)

/-- C6 (amended): for every successful fit of a grid with at least one
cell, `num_columns × num_lines ≥ cell_count > (num_columns − 1) × num_lines`
where `num_columns` is the length of the column-widths sequence.  (The
claim as stated fails for the empty grid, whose successful fit has
`cell_count = 0 = (num_columns − 1) × num_lines`.) -/
theorem c6_row_column_accounting (uw : String → Nat) (g : Grid) (maxw : Nat)
    (d : Dimensions) (hwf : g.wf) (hc : 1 ≤ g.cell_count)
    (hsome : g.width_dimensions uw maxw = some d) :
    g.cell_count ≤ d.widths.length * d.num_lines ∧
      (d.widths.length - 1) * d.num_lines < g.cell_count := by
  obtain ⟨hwide, hcases⟩ := width_dimensions_some_cases uw g maxw d hsome
  rcases hcases with ⟨h0, hd⟩ | ⟨h1, hd⟩ | ⟨hc2, ht1, hd⟩ | ⟨hc2, ht2, j', hj1, hj2, hf, hd⟩
  · omega
  · rw [hd]
    simp only [List.length_cons, List.length_nil]
    omega
  · rw [hd]
    simp only [List.length_map, ← hwf.1]
    omega
  · rw [hd, cand_dims_num_lines, cand_dims_widths_length]
    unfold Grid.cand_num_columns
    constructor
    · have := le_mul_ceilDiv (n := g.cell_count) (k := j') (by omega)
      have hcomm : j' * ceilDiv g.cell_count j' = ceilDiv g.cell_count j' * j' :=
        Nat.mul_comm _ _
      omega
    · exact ceilDiv_pred_mul_lt (by omega) (by omega)

theorem c6_witness :
    (testGrid [cellW 3, cellW 1, cellW 3] (Filling.Spaces 0)
        Direction.LeftToRight).cell_count ≤ 2 * 2 ∧ (2 - 1) * 2 <
      (testGrid [cellW 3, cellW 1, cellW 3] (Filling.Spaces 0)
        Direction.LeftToRight).cell_count := by
  have h := c6_row_column_accounting uw0
    (testGrid [cellW 3, cellW 1, cellW 3] (Filling.Spaces 0) Direction.LeftToRight) 5
    { num_lines := 2, widths := [3, 1] } (by decide) (by decide) (by decide)
  simpa using h

theorem c6_counterexample :
    (testGrid [] (Filling.Spaces 2) Direction.TopToBottom).width_dimensions uw0 5 =
        some { num_lines := 0, widths := [] } ∧
      ¬ (({ num_lines := 0, widths := [] } : Dimensions).widths.length - 1) *
          ({ num_lines := 0, widths := [] } : Dimensions).num_lines <
        (testGrid [] (Filling.Spaces 2) Direction.TopToBottom).cell_count := by
  decide


theorem is_complete_iff_widths_pos (disp : Display) :
    disp.is_complete = true ↔ ∀ w ∈ disp.dimensions.widths, 0 < w := by
  unfold Display.is_complete
  rw [List.all_eq_true]
  simp only [decide_eq_true_eq]

theorem cand_dims_widths_pos (uw : String → Nat) (g : Grid) {j : Nat} (hwf : g.wf)
    (hj : 0 < j) (hc : 0 < g.cell_count) (hpos : ∀ c ∈ g.cells, 0 < c.width) :
    ∀ w ∈ (g.cand_dims j).widths, 0 < w := by
  intro w hw
  obtain ⟨p, hp, hval⟩ := List.mem_iff_getElem.mp hw
  have hplen : p < g.cand_num_columns j := by
    have := cand_dims_widths_length g j
    omega
  obtain ⟨i, hi, hcol⟩ :=
    @colIndex_surj g.options.direction j g.cell_count hj p
      (by unfold Grid.cand_num_columns at hplen; exact hplen)
  have hcol2 : colIndex g.options.direction j (g.cand_num_columns j) i = p := hcol
  have hilen : i < g.cells.length := by rw [← hwf.1]; exact hi
  have hge := column_widths_ge_width g j (g.cand_num_columns j) hilen
    (by rw [hcol2]; exact hplen)
  rw [hcol2] at hge
  have hgetD : (g.cand_dims j).widths.getD p 0 = w := by
    rw [List.getD_eq_getElem?_getD, List.getElem?_eq_getElem hp, hval]
    rfl
  unfold Grid.cand_dims at hgetD
  rw [hgetD] at hge
  have hmem : g.cells.getD i default ∈ g.cells := by
    rw [List.getD_eq_getElem?_getD, List.getElem?_eq_getElem hilen]
    exact List.getElem_mem hilen
  have := hpos _ hmem
  omega

/-- C5 (amended): `is_complete` is true exactly when every column width is
positive; moreover for every grid all of whose cells have positive width, a
successful fit is complete.  (The claim's stronger statement — complete for
*every* nonempty grid, incompleteness only possible at cell count zero — is
false: a zero-width cell, e.g. an empty string, produces a zero-width
column, and the empty grid is vacuously complete.) -/
theorem c5_is_complete (uw : String → Nat) (g : Grid) (maxw : Nat) (disp : Display)
    (hwf : g.wf) (hfit : g.fit_into_width uw maxw = some disp) :
    (disp.is_complete = true ↔ ∀ w ∈ disp.dimensions.widths, 0 < w) ∧
      ((∀ c ∈ g.cells, 0 < c.width) → disp.is_complete = true) := by
  refine ⟨is_complete_iff_widths_pos disp, ?_⟩
  intro hpos
  rw [is_complete_iff_widths_pos disp]
  obtain ⟨hwd, hgrid⟩ := fit_some_inv uw g maxw disp hfit
  obtain ⟨hwide, hcases⟩ := width_dimensions_some_cases uw g maxw disp.dimensions hwd
  rcases hcases with ⟨h0, hd⟩ | ⟨h1, hd⟩ | ⟨hc2, ht1, hd⟩ | ⟨hc2, ht2, j', hj1, hj2, hf, hd⟩
  · rw [hd]
    intro w hw
    cases hw
  · rw [hd]
    intro w hw
    rcases List.mem_cons.mp hw with rfl | hw
    · have hne : g.cells ≠ [] := by
        intro he
        rw [hwf.1, he] at h1
        cases h1
      exact hpos _ (headI_mem_of_ne_nil hne)
    · cases hw
  · rw [hd]
    intro w hw
    obtain ⟨c, hc, hcw⟩ := List.mem_map.mp hw
    rw [← hcw]
    exact hpos c hc
  · rw [hd]
    exact cand_dims_widths_pos uw g hwf (by omega) (by omega) hpos

theorem c5_witness :
    ((⟨testGrid [cellW 3, cellW 1, cellW 3] (Filling.Spaces 0) Direction.LeftToRight,
        { num_lines := 2, widths := [3, 1] }⟩ : Display).is_complete = true ↔
      ∀ w ∈ [3, 1], 0 < w) ∧
    ((⟨testGrid [cellW 3, cellW 1, cellW 3] (Filling.Spaces 0) Direction.LeftToRight,
        { num_lines := 2, widths := [3, 1] }⟩ : Display).is_complete = true) := by
  have h := c5_is_complete uw0
    (testGrid [cellW 3, cellW 1, cellW 3] (Filling.Spaces 0) Direction.LeftToRight) 5
    ⟨testGrid [cellW 3, cellW 1, cellW 3] (Filling.Spaces 0) Direction.LeftToRight,
      { num_lines := 2, widths := [3, 1] }⟩ (by decide) (by decide)
  exact ⟨h.1, h.2 (by decide)⟩

theorem c5_counterexample :
    (testGrid [cellW 0] (Filling.Spaces 2) Direction.TopToBottom).fit_into_width uw0 5 =
        some ⟨testGrid [cellW 0] (Filling.Spaces 2) Direction.TopToBottom,
          { num_lines := 1, widths := [0] }⟩ ∧
      (⟨testGrid [cellW 0] (Filling.Spaces 2) Direction.TopToBottom,
          { num_lines := 1, widths := [0] }⟩ : Display).is_complete = false ∧
      (testGrid [cellW 0] (Filling.Spaces 2) Direction.TopToBottom).cell_count = 1 := by
  decide

/-- C9: rendering a fit-produced layout is total: for every rendered slot
`(x, y)` whose flat index addresses an existing cell, the stored column
width is at least that cell's width, so the renderer's assertion holds and
none of its `usize` subtractions `widths[x] - cell.width` underflows. -/
theorem c9_column_width_covers_cell (uw : String → Nat) (g : Grid) (maxw : Nat)
    (disp : Display) (hwf : g.wf) (hfit : g.fit_into_width uw maxw = some disp) :
    ∀ x y, x < disp.dimensions.widths.length → y < disp.dimensions.num_lines →
      flat_index disp.grid.options.direction disp.dimensions y x <
        disp.grid.cells.length →
      (disp.grid.cells.getD
          (flat_index disp.grid.options.direction disp.dimensions y x) default).width ≤
        disp.dimensions.widths.getD x 0 := by
  obtain ⟨hwd, hgrid⟩ := fit_some_inv uw g maxw disp hfit
  obtain ⟨hwide, hcases⟩ := width_dimensions_some_cases uw g maxw disp.dimensions hwd
  subst hgrid
  intro x y hx hy hnum
  rcases hcases with ⟨h0, hd⟩ | ⟨h1, hd⟩ | ⟨hc2, ht1, hd⟩ | ⟨hc2, ht2, j', hj1, hj2, hf, hd⟩
  · have hnl : disp.dimensions.num_lines = 0 := by rw [hd]
    rw [hnl] at hy
    cases hy
  · have hnl : disp.dimensions.num_lines = 1 := by rw [hd]
    have hws : disp.dimensions.widths = [disp.grid.cells.headI.width] := by rw [hd]
    rw [hws] at hx ⊢
    rw [hnl] at hy
    simp only [List.length_cons, List.length_nil] at hx
    have hx0 : x = 0 := by omega
    have hy0 : y = 0 := by omega
    subst hx0
    subst hy0
    have hnum0 : flat_index disp.grid.options.direction disp.dimensions 0 0 = 0 := by
      unfold flat_index
      cases disp.grid.options.direction <;> simp
    rw [hnum0] at hnum ⊢
    have hne : disp.grid.cells ≠ [] := by
      intro he
      rw [he] at hnum
      simp at hnum
    rw [getD_zero_eq_headI hne]
    have hg : ([disp.grid.cells.headI.width] : List Nat).getD 0 0 =
        disp.grid.cells.headI.width := rfl
    rw [hg]
  · have hnl : disp.dimensions.num_lines = 1 := by rw [hd]
    have hws : disp.dimensions.widths = disp.grid.cells.map Cell.width := by rw [hd]
    rw [hnl] at hy
    have hy0 : y = 0 := by omega
    subst hy0
    have hnumx : flat_index disp.grid.options.direction disp.dimensions 0 x = x := by
      unfold flat_index
      cases disp.grid.options.direction with
      | LeftToRight => simp
      | TopToBottom => rw [hnl]; simp
    rw [hnumx] at hnum ⊢
    rw [hws]
    have hg : (disp.grid.cells.map Cell.width).getD x 0 =
        (disp.grid.cells.getD x default).width := by
      have h := List.getD_map disp.grid.cells default (n := x) Cell.width
      exact h
    rw [hg]
  · have hj0 : 0 < j' := by omega
    rw [hd] at hx hy hnum ⊢
    rw [cand_dims_widths_length] at hx
    rw [cand_dims_num_lines] at hy
    have hcol : colIndex disp.grid.options.direction j'
        (disp.grid.cand_num_columns j')
        (flat_index disp.grid.options.direction (disp.grid.cand_dims j') y x) = x := by
      unfold flat_index colIndex
      cases disp.grid.options.direction with
      | LeftToRight =>
        simp only [cand_dims_widths_length]
        exact colIndex_flat_LR x y hx
      | TopToBottom =>
        simp only [cand_dims_num_lines]
        exact colIndex_flat_TB x y hy
    have hge := column_widths_ge_width disp.grid j' (disp.grid.cand_num_columns j')
      hnum (by rw [hcol]; exact hx)
    rw [hcol] at hge
    exact hge

theorem c9_witness :
    (((testGrid [cellW 3, cellW 1, cellW 3] (Filling.Spaces 0)
        Direction.LeftToRight).cells.getD 0 default).width : Nat) ≤
      ([3, 1] : List Nat).getD 0 0 := by
  have h := c9_column_width_covers_cell uw0
    (testGrid [cellW 3, cellW 1, cellW 3] (Filling.Spaces 0) Direction.LeftToRight) 5
    ⟨testGrid [cellW 3, cellW 1, cellW 3] (Filling.Spaces 0) Direction.LeftToRight,
      { num_lines := 2, widths := [3, 1] }⟩ (by decide) (by decide)
    0 0 (by decide) (by decide) (by decide)
  simpa using h


/-- C1 (amended): past the guards (at least two cells, widest cell within
budget, theoretical bound at least 2), the descending scan returns `some d`
exactly when some checked candidate `j0` is infeasible with no infeasible
candidate above it in the scanned range, and a feasible candidate `j\'`
lies above `j0` with only skipped candidates in between; `d` is that last
feasible candidate's dimensions.  In particular the scan returns nothing
not only when no candidate was recorded feasible, but also whenever the
loop exhausts without meeting a checked infeasible candidate — even with
feasible candidates recorded (see the counterexample). -/
theorem c1_descending_scan_characterisation (uw : String → Nat) (g : Grid) (maxw : Nat)
    (d : Dimensions) (_hwf : g.wf) (hc : 2 ≤ g.cell_count)
    (hw : g.widest_cell_length ≤ maxw)
    (ht : 2 ≤ g.theoretical_max_num_lines uw maxw) :
    g.width_dimensions uw maxw = some d ↔
      ∃ j0 j', 1 ≤ j0 ∧ j0 < j' ∧ j' ≤ g.theoretical_max_num_lines uw maxw - 1 ∧
        g.cand_infeas uw maxw j0 ∧
        (∀ j, j0 < j → j ≤ g.theoretical_max_num_lines uw maxw - 1 →
          ¬ g.cand_infeas uw maxw j) ∧
        g.cand_feas uw maxw j' ∧
        (∀ j, j0 < j → j < j' → g.cand_skip uw maxw j) ∧
        d = g.cand_dims j' := by
  have heq : g.width_dimensions uw maxw =
      widthDimLoop uw g maxw (g.theoretical_max_num_lines uw maxw - 1) none := by
    unfold Grid.width_dimensions
    rw [if_neg (by omega), if_neg (by omega), if_neg (by omega), if_neg (by omega)]
  rw [heq, widthDimLoop_some_iff]
  constructor
  · rintro ⟨j0, h1, h2, hinf, hnoinf, hdis⟩
    rcases hdis with ⟨j', hj1, hj2, hf, hsk, hd⟩ | ⟨-, hb⟩
    · exact ⟨j0, j', h1, hj1, hj2, hinf, hnoinf, hf, hsk, hd⟩
    · cases hb
  · rintro ⟨j0, j', h1, hj1, hj2, hinf, hnoinf, hf, hsk, hd⟩
    exact ⟨j0, h1, by omega, hinf, hnoinf, Or.inl ⟨j', hj1, hj2, hf, hsk, hd⟩⟩

theorem c1_witness :
    ∃ j0 j', 1 ≤ j0 ∧ j0 < j' ∧
      j' ≤ (testGrid [cellW 3, cellW 1, cellW 3] (Filling.Spaces 0)
        Direction.LeftToRight).theoretical_max_num_lines uw0 5 - 1 ∧
      (testGrid [cellW 3, cellW 1, cellW 3] (Filling.Spaces 0)
        Direction.LeftToRight).cand_infeas uw0 5 j0 ∧
      (∀ j, j0 < j → j ≤ (testGrid [cellW 3, cellW 1, cellW 3] (Filling.Spaces 0)
          Direction.LeftToRight).theoretical_max_num_lines uw0 5 - 1 →
        ¬ (testGrid [cellW 3, cellW 1, cellW 3] (Filling.Spaces 0)
          Direction.LeftToRight).cand_infeas uw0 5 j) ∧
      (testGrid [cellW 3, cellW 1, cellW 3] (Filling.Spaces 0)
        Direction.LeftToRight).cand_feas uw0 5 j' ∧
      (∀ j, j0 < j → j < j' → (testGrid [cellW 3, cellW 1, cellW 3] (Filling.Spaces 0)
        Direction.LeftToRight).cand_skip uw0 5 j) ∧
      ({ num_lines := 2, widths := [3, 1] } : Dimensions) =
        (testGrid [cellW 3, cellW 1, cellW 3] (Filling.Spaces 0)
          Direction.LeftToRight).cand_dims j' :=
  (c1_descending_scan_characterisation uw0
    (testGrid [cellW 3, cellW 1, cellW 3] (Filling.Spaces 0) Direction.LeftToRight) 5
    { num_lines := 2, widths := [3, 1] }
    (by decide) (by decide) (by decide) (by decide)).mp (by decide)

theorem c1_counterexample :
    (testGrid [cellW 1, cellW 3, cellW 1, cellW 3] (Filling.Spaces 4)
        Direction.LeftToRight).fit_into_width uw0 9 = none ∧
      (testGrid [cellW 1, cellW 3, cellW 1, cellW 3] (Filling.Spaces 4)
        Direction.LeftToRight).cand_feas uw0 9 2 ∧
      2 ≤ (testGrid [cellW 1, cellW 3, cellW 1, cellW 3] (Filling.Spaces 4)
        Direction.LeftToRight).theoretical_max_num_lines uw0 9 - 1 := by
  decide

/-- C7 (amended): success is not monotone in the width budget (see the
counterexample: a fit can succeed at `W` and fail at `W\' > W` because the
theoretical row bound collapses), but the row count is: whenever the same
grid fits at `W` and at `W\' ≥ W`, the fit at the larger budget uses the
same number of rows or fewer. -/
theorem c7_row_count_antitone (uw : String → Nat) (g : Grid) (w w' : Nat)
    (dispW dispW' : Display) (hwf : g.wf) (hle : w ≤ w')
    (hfit : g.fit_into_width uw w = some dispW)
    (hfit' : g.fit_into_width uw w' = some dispW') :
    dispW'.row_count ≤ dispW.row_count := by
  obtain ⟨hwd, hg⟩ := fit_some_inv uw g w dispW hfit
  obtain ⟨hwd', hg'⟩ := fit_some_inv uw g w' dispW' hfit'
  have hrc : dispW.row_count = dispW.dimensions.num_lines := rfl
  have hrc' : dispW'.row_count = dispW'.dimensions.num_lines := rfl
  rw [hrc, hrc']
  obtain ⟨hwide, hcases⟩ := width_dimensions_some_cases uw g w dispW.dimensions hwd
  obtain ⟨hwide', hcases'⟩ := width_dimensions_some_cases uw g w' dispW'.dimensions hwd'
  rcases hcases with ⟨h0, hd⟩ | ⟨h1, hd⟩ | ⟨hc2, ht1, hd⟩ | ⟨hc2, ht2, j', hj1, hj2, hf, hd⟩
  · rcases hcases' with ⟨h0', hd'⟩ | ⟨h1', hd'⟩ | ⟨hc2', -, -⟩ | ⟨hc2', -, -⟩
    · have ha : dispW'.dimensions.num_lines = 0 := by rw [hd']
      omega
    · omega
    · omega
    · omega
  · rcases hcases' with ⟨h0', hd'⟩ | ⟨h1', hd'⟩ | ⟨hc2', -, -⟩ | ⟨hc2', -, -⟩
    · omega
    · have ha : dispW.dimensions.num_lines = 1 := by rw [hd]
      have hb : dispW'.dimensions.num_lines = 1 := by rw [hd']
      omega
    · omega
    · omega
  · have htanti : g.theoretical_max_num_lines uw w' ≤ g.theoretical_max_num_lines uw w :=
      tmnl_anti uw g hle hwf (by omega) hwide
    have ha : dispW.dimensions.num_lines = 1 := by rw [hd]
    rcases hcases' with ⟨h0', hd'⟩ | ⟨h1', hd'⟩ | ⟨hc2', ht1', hd'⟩ | ⟨hc2', ht2', -⟩
    · omega
    · omega
    · have hb : dispW'.dimensions.num_lines = 1 := by rw [hd']
      omega
    · omega
  · have htanti : g.theoretical_max_num_lines uw w' ≤ g.theoretical_max_num_lines uw w :=
      tmnl_anti uw g hle hwf (by omega) hwide
    obtain ⟨hW2, hWle, hWdims, hWinf, hWfeas⟩ :=
      width_dimensions_loop_char uw g w dispW.dimensions hc2 ht2 hwd
    rcases hcases' with ⟨h0', hd'⟩ | ⟨h1', hd'⟩ | ⟨hc2', ht1', hd'⟩ | ⟨hc2', ht2', -⟩
    · omega
    · omega
    · have hb : dispW'.dimensions.num_lines = 1 := by rw [hd']
      omega
    · obtain ⟨hW2', hWle', hWdims', hWinf', hWfeas'⟩ :=
        width_dimensions_loop_char uw g w' dispW'.dimensions hc2' ht2' hwd'
      by_contra hgt
      have hm1 : dispW.dimensions.num_lines ≤ dispW'.dimensions.num_lines - 1 := by
        omega
      have hm2 : dispW'.dimensions.num_lines - 1 ≤
          g.theoretical_max_num_lines uw w - 1 := by
        omega
      have h3 := hWfeas (dispW'.dimensions.num_lines - 1) hm1 hm2
      omega

theorem c7_counterexample :
    (testGrid [cellW 3, cellW 1, cellW 3] (Filling.Spaces 0)
        Direction.LeftToRight).fit_into_width uw0 5 =
      some ⟨testGrid [cellW 3, cellW 1, cellW 3] (Filling.Spaces 0) Direction.LeftToRight,
        { num_lines := 2, widths := [3, 1] }⟩ ∧
    (testGrid [cellW 3, cellW 1, cellW 3] (Filling.Spaces 0)
        Direction.LeftToRight).fit_into_width uw0 6 = none := by
  decide

theorem c7_witness :
    (⟨testGrid [cellW 3, cellW 1, cellW 3] (Filling.Spaces 0) Direction.LeftToRight,
        { num_lines := 1, widths := [3, 1, 3] }⟩ : Display).row_count ≤
      (⟨testGrid [cellW 3, cellW 1, cellW 3] (Filling.Spaces 0) Direction.LeftToRight,
        { num_lines := 2, widths := [3, 1] }⟩ : Display).row_count :=
  c7_row_count_antitone uw0
    (testGrid [cellW 3, cellW 1, cellW 3] (Filling.Spaces 0) Direction.LeftToRight) 5 7
    ⟨testGrid [cellW 3, cellW 1, cellW 3] (Filling.Spaces 0) Direction.LeftToRight,
      { num_lines := 2, widths := [3, 1] }⟩
    ⟨testGrid [cellW 3, cellW 1, cellW 3] (Filling.Spaces 0) Direction.LeftToRight,
      { num_lines := 1, widths := [3, 1, 3] }⟩
    (by decide) (by decide) (by decide) (by decide)


/-! ### Renderer structure -/

theorem string_foldl_append (l : List String) :
    ∀ acc : String,
      l.foldl (fun r s => r ++ s) acc = acc ++ l.foldl (fun r s => r ++ s) "" := by
  induction l with
  | nil =>
    intro acc
    rw [List.foldl_nil, List.foldl_nil]
    exact (String.append_empty acc).symm
  | cons a t ih =>
    intro acc
    rw [List.foldl_cons, List.foldl_cons, ih (acc ++ a), ih ("" ++ a)]
    rw [String.empty_append, String.append_assoc]

theorem string_join_cons (a : String) (l : List String) :
    String.join (a :: l) = a ++ String.join l := by
  show (a :: l).foldl (fun r s => r ++ s) "" = a ++ l.foldl (fun r s => r ++ s) ""
  rw [List.foldl_cons, string_foldl_append l ("" ++ a), String.empty_append]

theorem foldl_emit_eq_join (s : Nat → String) (l : List Nat) :
    ∀ acc : String, l.foldl (fun a x => a ++ s x) acc = acc ++ String.join (l.map s) := by
  induction l with
  | nil =>
    intro acc
    rw [List.foldl_nil, List.map_nil]
    rw [show String.join [] = "" from rfl]
    exact (String.append_empty acc).symm
  | cons a t ih =>
    intro acc
    rw [List.foldl_cons, List.map_cons, string_join_cons, ih (acc ++ s a),
      ← String.append_assoc]

theorem render_text_eq_rows (disp : Display) :
    render_text disp =
      String.join ((List.range disp.dimensions.num_lines).map
        (fun y => String.join ((List.range disp.dimensions.widths.length).map
          (fun x => render_slot disp y x)) ++ "\n")) := by
  have houter : ∀ (rows : List Nat) (acc : String),
      rows.foldl (fun acc y =>
        ((List.range disp.dimensions.widths.length).foldl
          (fun acc2 x => acc2 ++ render_slot disp y x) acc) ++ "\n") acc =
      acc ++ String.join (rows.map (fun y =>
        String.join ((List.range disp.dimensions.widths.length).map
          (fun x => render_slot disp y x)) ++ "\n")) := by
    intro rows
    induction rows with
    | nil =>
      intro acc
      rw [List.foldl_nil, List.map_nil]
      rw [show String.join [] = "" from rfl]
      exact (String.append_empty acc).symm
    | cons a t ih =>
      intro acc
      rw [List.foldl_cons, List.map_cons, string_join_cons, ih]
      rw [foldl_emit_eq_join]
      simp [String.append_assoc]
  unfold render_text
  rw [houter]
  exact String.empty_append _

/-- C8: the renderer emits exactly `num_lines` rows, each terminated by a
single line break (the last row included), and in the last column of a row
an existing cell is emitted as its raw text with no trailing padding when
left-aligned, and left-padded with `column_width − cell.width` spaces when
right-aligned. -/
theorem c8_last_column_and_line_breaks (disp : Display) :
    (render_text disp =
      String.join ((List.range disp.dimensions.num_lines).map
        (fun y => String.join ((List.range disp.dimensions.widths.length).map
          (fun x => render_slot disp y x)) ++ "\n"))) ∧
    (∀ y x num, x = disp.dimensions.widths.length - 1 →
      0 < disp.dimensions.widths.length →
      num = flat_index disp.grid.options.direction disp.dimensions y x →
      num < disp.grid.cells.length →
      ((disp.grid.cells.getD num default).alignment = Alignment.Left →
        render_slot disp y x = (disp.grid.cells.getD num default).contents) ∧
      ((disp.grid.cells.getD num default).alignment = Alignment.Right →
        render_slot disp y x =
          spaces (disp.dimensions.widths.getD x 0 -
            (disp.grid.cells.getD num default).width) ++
          (disp.grid.cells.getD num default).contents)) := by
  refine ⟨render_text_eq_rows disp, ?_⟩
  intro y x num hx hlen hnum hlt
  subst hx
  subst hnum
  constructor
  · intro hL
    simp only [render_slot]
    rw [if_pos hlt]
    simp only [if_true]
    rw [hL]
  · intro hR
    simp only [render_slot]
    rw [if_pos hlt]
    simp only [if_true]
    rw [hR]
    simp [pad_string]

theorem c8_witness :
    render_slot
      ⟨testGrid [⟨"one", 3, Alignment.Left⟩, ⟨"two", 3, Alignment.Left⟩,
          ⟨"three", 5, Alignment.Left⟩] (Filling.Spaces 2) Direction.LeftToRight,
        { num_lines := 1, widths := [3, 3, 5] }⟩ 0 2 =
      ((⟨testGrid [⟨"one", 3, Alignment.Left⟩, ⟨"two", 3, Alignment.Left⟩,
          ⟨"three", 5, Alignment.Left⟩] (Filling.Spaces 2) Direction.LeftToRight,
        { num_lines := 1, widths := [3, 3, 5] }⟩ : Display).grid.cells.getD 2
          default).contents :=
  ((c8_last_column_and_line_breaks
      ⟨testGrid [⟨"one", 3, Alignment.Left⟩, ⟨"two", 3, Alignment.Left⟩,
          ⟨"three", 5, Alignment.Left⟩] (Filling.Spaces 2) Direction.LeftToRight,
        { num_lines := 1, widths := [3, 3, 5] }⟩).2 0 2 2
    (by decide) (by decide) (by decide) (by decide)).1 (by decide)

-- Sanity checks against the upstream unit tests and hand-traced runs.
example : (testGrid [] (Filling.Spaces 2) Direction.TopToBottom).width_dimensions uw0 40 =
    some { num_lines := 0, widths := [] } := by decide

example : (testGrid [cellW 1] (Filling.Spaces 2) Direction.TopToBottom).width_dimensions uw0 40 =
    some { num_lines := 1, widths := [1] } := by decide

example : (testGrid [cellW 10] (Filling.Spaces 2) Direction.TopToBottom).width_dimensions uw0 10 =
    some { num_lines := 1, widths := [10] } := by decide

example : (testGrid [cellW 11] (Filling.Spaces 2) Direction.TopToBottom).width_dimensions uw0 10 =
    none := by decide

example : (testGrid [cellW 1, cellW 3, cellW 1, cellW 3] (Filling.Spaces 4)
    Direction.LeftToRight).width_dimensions uw0 9 = none := by decide

example : (testGrid [cellW 3, cellW 1, cellW 3] (Filling.Spaces 0)
    Direction.LeftToRight).width_dimensions uw0 5 =
    some { num_lines := 2, widths := [3, 1] } := by decide

example : (testGrid [cellW 3, cellW 1, cellW 3] (Filling.Spaces 0)
    Direction.LeftToRight).width_dimensions uw0 6 = none := by decide

example : (testGrid [cellW 1, cellW 3, cellW 1, cellW 3] (Filling.Spaces 4)
    Direction.LeftToRight).theoretical_max_num_lines uw0 9 = 4 := by decide

end RcColumn
